import Mathlib

/-!
# Verification of the node-iconv conversion-buffer engine (src/iconv.cc)

Shallow embedding of the C++ source.  The external libiconv primitive is
modelled as an abstract record of pure state-transition functions (`Prim`);
allocation outcomes (`realloc` success/failure) are oracle parameters; the
`do/while` growth loop is given explicit fuel (`none` = the loop did not
terminate within the fuel, which never happens for well-behaved primitives).

Correspondence with the source (src/iconv.cc):
* `grow`            ↔ `grow` (lines 41-57)
* `convertLoop`     ↔ the `do { ... } while (rv == -1 && errno == E2BIG)`
                      loop plus the `if (rv == -1) goto error` check
                      (lines 79-91)
* `flushPhase`      ↔ the shift-sequence flush and its single grow-and-retry
                      (lines 93-106)
* `finishPhase`     ↔ the length store and shrink-to-fit realloc
                      (lines 108-115)
* `convert`         ↔ `convert` (lines 62-124); `errorExit` is the shared
                      `error:` label (lines 119-123)
* `IconvConvert`    ↔ `Iconv::Convert(char*, size_t)` (lines 132-155)
* `IconvConvertJs`  ↔ `Iconv::Convert(const Arguments&)` (lines 157-177)
* `fixEncodingName` ↔ `fixEncodingName` (lines 179-205)
* `IconvNew`        ↔ `Iconv::New` (lines 207-226)

A byte is modelled as a `Nat`; a buffer's contents as a `List Nat`.
-/

/-- The errno values the source distinguishes (`E2BIG`, `EINVAL`, `EILSEQ`,
`ENOMEM`); every other system error code is carried symbolically. -/
inductive Errno where
  | e2big
  | einval
  | eilseq
  | enomem
  | other (code : Nat)
deriving DecidableEq, Repr

/-- The conversion buffer of `convert`: `data` are the bytes written so far
(so `data.length` is the write cursor's relative offset `outbuf - *output`),
`cap` is the allocation size `*outlen`, and `tail` is the remaining space
variable `*outbufsz` exactly as the source tracks it. -/
structure Buf where
  data : List Nat
  cap : Nat
  tail : Nat
deriving DecidableEq, Repr

/-- `grow` (src/iconv.cc lines 41-57).  `allocOk` is the oracle outcome of
the `realloc`; `none` models allocation failure (return 0, errno = ENOMEM).
On success: `newlen = *outlen ? (*outlen * 2) : 16`; the new free-space
variable is `newlen - *outlen` (line 47, computed from the OLD capacity);
`realloc` preserves the stored bytes and line 48 keeps the write cursor at
the same relative offset, so `data` is unchanged. -/
def grow (allocOk : Bool) (st : Buf) : Option Buf :=
  if allocOk then
    let newlen := if st.cap = 0 then 16 else st.cap * 2
    some { data := st.data, cap := newlen, tail := newlen - st.cap }
  else
    none

/-- Advance the output cursor after the primitive wrote `out`:
`outbuf += |out|; outbufsz -= |out|`. -/
def Buf.write (st : Buf) (out : List Nat) : Buf :=
  { data := st.data ++ out, cap := st.cap, tail := st.tail - out.length }

/-- `logical length ≤ capacity` phrased on the raw state: written bytes plus
remaining declared space fit in the allocation. -/
def BufInv (st : Buf) : Prop :=
  st.data.length + st.tail ≤ st.cap

/-- Pop the next allocation outcome from the oracle; an exhausted oracle
means the allocation succeeds. -/
def popAlloc : List Bool → Bool × List Bool
  | [] => (true, [])
  | b :: rest => (b, rest)

/-- The external conversion primitive (libiconv), abstracted.
`step s input space` models `iconv(iv, &inbuf, &inbufsz, &outbuf, &outbufsz)`:
it returns the new internal state, the unconsumed input, the bytes it wrote
into the output tail, and `none` on success (`rv != (size_t) -1`) or
`some e` for failure with `errno = e`.  `flush s space` models the
null-input form `iconv(iv, 0, 0, &outbuf, &outbufsz)`, and `reset` the
full-null form `iconv(iv, 0, 0, 0, 0)`. -/
structure Prim (σ : Type) where
  reset : σ → σ
  step : σ → List Nat → Nat → σ × List Nat × List Nat × Option Errno
  flush : σ → Nat → σ × List Nat × Option Errno

/-- A primitive never writes more bytes than the space it was given
(libiconv's documented contract for the output cursor). -/
structure PrimWF {σ : Type} (prim : Prim σ) : Prop where
  step_fits : ∀ s i n, (Prim.step prim s i n).2.2.1.length ≤ n
  flush_fits : ∀ s n, (Prim.flush prim s n).2.1.length ≤ n

/-- Result of the growth loop: success with the primitive state, buffer and
remaining allocation oracle, or failure with the ambient errno; `iters`
counts executions of the loop body and `gcs` the `grow` calls made.
`fuelOut` is the out-of-fuel marker of the embedding. -/
inductive LoopRes (σ : Type) where
  | ok (s : σ) (st : Buf) (allocs : List Bool) (iters : Nat) (gcs : Nat)
  | err (e : Errno) (iters : Nat) (gcs : Nat)
  | fuelOut
deriving DecidableEq

/-- The growth loop of `convert` (src/iconv.cc lines 79-91): a do/while that
always runs its body at least once; each iteration grows (aborting with
ENOMEM if the realloc fails, line 84) then calls the primitive; it repeats
only on `rv == -1 && errno == E2BIG`; any other failure reaches the
`if (rv == -1) goto error` check at line 89. -/
def convertLoop {σ : Type} (prim : Prim σ) :
    Nat → σ → List Nat → Buf → List Bool → Nat → Nat → LoopRes σ
  | 0, _, _, _, _, _, _ => .fuelOut
  | fuel + 1, s, input, st, allocs, iters, gcs =>
    let pa := popAlloc allocs
    match grow pa.1 st with
    | none => .err .enomem (iters + 1) (gcs + 1)
    | some st1 =>
      match Prim.step prim s input st1.tail with
      | (s1, input1, out, r) =>
        let st2 := st1.write out
        match r with
        | some .e2big => convertLoop prim fuel s1 input1 st2 pa.2 (iters + 1) (gcs + 1)
        | some e => .err e (iters + 1) (gcs + 1)
        | none => .ok s1 st2 pa.2 (iters + 1) (gcs + 1)

/-- Result of the flush phase; `calls` counts flush invocations of the
primitive and `grows` the grow calls made during the phase. -/
inductive FlushRes (σ : Type) where
  | ok (s : σ) (st : Buf) (allocs : List Bool) (calls : Nat) (grows : Nat)
  | err (e : Errno) (calls : Nat) (grows : Nat)
deriving DecidableEq

/-- Number of primitive flush invocations performed. -/
def FlushRes.callCount {σ : Type} : FlushRes σ → Nat
  | .ok _ _ _ c _ => c
  | .err _ c _ => c

/-- Number of grow calls performed during the flush phase. -/
def FlushRes.growCount {σ : Type} : FlushRes σ → Nat
  | .ok _ _ _ _ g => g
  | .err _ _ g => g

/-- The shift-sequence flush of `convert` (src/iconv.cc lines 93-106):
one flush call; on success continue; on failure with errno ≠ E2BIG abort;
on E2BIG grow exactly once (ENOMEM abort if the realloc fails) and retry
the flush exactly once, aborting on any failure of the retry.  A failing
iconv call still advances the output cursor for what it managed to write,
hence the `Buf.write` before the grow. -/
def flushPhase {σ : Type} (prim : Prim σ) (s : σ) (st : Buf)
    (allocs : List Bool) : FlushRes σ :=
  match Prim.flush prim s st.tail with
  | (s1, out1, none) => .ok s1 (st.write out1) allocs 1 0
  | (s1, out1, some e) =>
    if e = .e2big then
      let st1 := st.write out1
      let pa := popAlloc allocs
      match grow pa.1 st1 with
      | none => .err .enomem 1 1
      | some st2 =>
        match Prim.flush prim s1 st2.tail with
        | (s2, out2, none) => .ok s2 (st2.write out2) pa.2 2 1
        | (_, _, some e2) => .err e2 2 1
    else
      .err e 1 0

/-- The length store and shrink-to-fit realloc (src/iconv.cc lines 108-115):
`*outlen = outbuf - *output` is the logical length; the shrink keeps the
bytes either way and is attempted exactly once; on realloc failure the old
(oversized) allocation is kept.  Returns (bytes, storage size). -/
def finishPhase (shrinkOk : Bool) (st : Buf) : List Nat × Nat :=
  if shrinkOk then (st.data, st.data.length) else (st.data, st.cap)

/-- Call counters of one `convert` run. -/
structure Stats where
  loopIters : Nat
  growCalls : Nat
  flushCalls : Nat
  flushGrows : Nat
  shrinkCalls : Nat
deriving DecidableEq, Repr

/-- The out-parameters and return value of `convert` as the C caller sees
them: `ok` is the int return value, `output`/`outlen` the two out-pointers
(`none` models the null pointer), `storage` the size of the allocation
backing `output` (0 when freed), `errno` the ambient errno (meaningful only
on failure; the source leaves it unread on success). -/
structure CRet where
  ok : Bool
  output : Option (List Nat)
  outlen : Nat
  storage : Nat
  errno : Errno
  stats : Stats
deriving DecidableEq, Repr

/-- The shared `error:` label of `convert` (src/iconv.cc lines 119-123):
`free(*output); *output = 0; *outlen = 0; return 0;`. -/
def errorExit (e : Errno) (stats : Stats) : CRet :=
  { ok := false, output := none, outlen := 0, storage := 0, errno := e,
    stats := stats }

/-- `convert` (src/iconv.cc lines 62-124): reset the converter, run the
growth loop from an empty buffer, flush the trailing shift sequence, store
the logical length and shrink.  `fuel` bounds the do/while loop (`none` =
fuel exhausted); `allocs` is the oracle for the grow reallocs and
`shrinkOk` the oracle for the final shrink realloc. -/
def convert {σ : Type} (prim : Prim σ) (fuel : Nat) (s0 : σ)
    (input : List Nat) (allocs : List Bool) (shrinkOk : Bool) : Option CRet :=
  match convertLoop prim fuel (Prim.reset prim s0) input
      { data := [], cap := 0, tail := 0 } allocs 0 0 with
  | .fuelOut => none
  | .err e it gc =>
    some (errorExit e { loopIters := it, growCalls := gc, flushCalls := 0,
                        flushGrows := 0, shrinkCalls := 0 })
  | .ok s1 st allocs1 it gc =>
    match flushPhase prim s1 st allocs1 with
    | .err e fc fg =>
      some (errorExit e { loopIters := it, growCalls := gc, flushCalls := fc,
                          flushGrows := fg, shrinkCalls := 0 })
    | .ok _ st2 _ fc fg =>
      let fin := finishPhase shrinkOk st2
      some { ok := true, output := some fin.1, outlen := fin.1.length,
             storage := fin.2, errno := .other 0,
             stats := { loopIters := it, growCalls := gc, flushCalls := fc,
                        flushGrows := fg, shrinkCalls := 1 } }

/-- The classified errors thrown to JavaScript, each carrying the errno the
`ErrnoException` was built from. -/
inductive JsError where
  | unsupportedConversion (e : Errno)
  | incompleteSequence (e : Errno)
  | illegalSequence (e : Errno)
  | outOfMemory (e : Errno)
  | otherSystemError (e : Errno)
deriving DecidableEq, Repr

/-- `Iconv::Convert(char*, size_t)` (src/iconv.cc lines 132-155): on success
wrap the bytes in a Buffer; on failure classify the ambient errno through
the if/else chain (note line 143 hardcodes EINVAL in the exception it
builds, mirrored here literally). -/
def IconvConvert {σ : Type} (prim : Prim σ) (fuel : Nat) (s0 : σ)
    (input : List Nat) (allocs : List Bool) (shrinkOk : Bool) :
    Option (Except JsError (List Nat)) :=
  match convert prim fuel s0 input allocs shrinkOk with
  | none => none
  | some r =>
    if r.ok then
      some (.ok (r.output.getD []))
    else if r.errno = .einval then
      some (.error (.incompleteSequence .einval))
    else if r.errno = .eilseq then
      some (.error (.illegalSequence r.errno))
    else if r.errno = .enomem then
      some (.error (.outOfMemory r.errno))
    else
      some (.error (.otherSystemError r.errno))

/-- Modelled from the spec (§7 error taxonomy, claim C3's wording): the
classification the spec promises from the primitive's failure signal. -/
def specClassify : Errno → JsError
  | .einval => .incompleteSequence .einval
  | .eilseq => .illegalSequence .eilseq
  | .enomem => .outOfMemory .enomem
  | e => .otherSystemError e

/-- The JavaScript argument of `Iconv::Convert(const Arguments&)`: a string,
a Buffer, or anything else. -/
inductive JsValue where
  | str (s : String)
  | buf (bytes : List Nat)
  | other

/-- What the binding returns to JavaScript: a conversion result or
`Undefined` (line 176). -/
inductive JsRet where
  | value (r : Except JsError (List Nat))
  | undefined

/-- The UTF-8 bytes of a string, as `String::Utf8Value` produces them
(the byte list underlying `String.toUTF8`). -/
def utf8Bytes (s : String) : List Nat :=
  (s.data.flatMap String.utf8EncodeChar).map (fun b => b.toNat)

/-- `Iconv::Convert(const Arguments&)` (src/iconv.cc lines 157-177): a
string argument is converted via its UTF-8 bytes (`String::Utf8Value`), a
Buffer argument via its raw bytes, anything else yields `Undefined`. -/
def IconvConvertJs {σ : Type} (prim : Prim σ) (fuel : Nat) (s0 : σ)
    (allocs : List Bool) (shrinkOk : Bool) (arg : JsValue) :
    Option JsRet :=
  match arg with
  | .str s => (IconvConvert prim fuel s0 (utf8Bytes s) allocs shrinkOk).map .value
  | .buf b => (IconvConvert prim fuel s0 b allocs shrinkOk).map .value
  | .other => some .undefined

/-- ASCII `tolower`, as used byte-wise by `strcasecmp`/`strncasecmp`. -/
def lowerAscii (c : Char) : Char :=
  if 65 ≤ c.toNat ∧ c.toNat ≤ 90 then Char.ofNat (c.toNat + 32) else c

/-- `fixEncodingName` (src/iconv.cc lines 179-205) on the character list of
the name.  `strncasecmp(name, "UTF", 3) == 0` is three case-insensitive
character comparisons (a name shorter than 3 fails on the NUL terminator);
`name[3] != '-'` is vacuously true when the name has exactly 3 characters
(`name[3]` is then NUL, which also sends the switch to its default);
`strcmp(s, "6")` is exact equality and `strcasecmp(s, "6LE")` equality of
the `lowerAscii` images. -/
def fixChars : List Char → List Char
  | c0 :: c1 :: c2 :: rest =>
    if lowerAscii c0 = 'u' ∧ lowerAscii c1 = 't' ∧ lowerAscii c2 = 'f'
        ∧ rest.head? ≠ some '-' then
      match rest with
      | r0 :: s =>
        if r0 = '1' then
          if s = ['6'] then ("UTF-16").toList
          else if s.map lowerAscii = ['6', 'L', 'E'].map lowerAscii then ("UTF-16LE").toList
          else if s.map lowerAscii = ['6', 'B', 'E'].map lowerAscii then ("UTF-16BE").toList
          else c0 :: c1 :: c2 :: rest
        else if r0 = '3' then
          if s = ['2'] then ("UTF-32").toList
          else if s.map lowerAscii = ['2', 'L', 'E'].map lowerAscii then ("UTF-32LE").toList
          else if s.map lowerAscii = ['2', 'B', 'E'].map lowerAscii then ("UTF-32BE").toList
          else c0 :: c1 :: c2 :: rest
        else if r0 = '7' then
          if s = [] then ("UTF-7").toList else c0 :: c1 :: c2 :: rest
        else if r0 = '8' then
          if s = [] then ("UTF-8").toList else c0 :: c1 :: c2 :: rest
        else c0 :: c1 :: c2 :: rest
      | [] => c0 :: c1 :: c2 :: rest
    else c0 :: c1 :: c2 :: rest
  | l => l

/-- `fixEncodingName` on strings. -/
def fixEncodingName (name : String) : String :=
  String.mk (fixChars name.toList)

/-- Modelled from the spec (claim C8's wording): map the unhyphenated UTF
aliases — UTF8, UTF16, UTF16LE, UTF16BE, UTF32, UTF32LE, UTF32BE, UTF7,
matched ASCII-case-insensitively (the digits have no case; the source's
`strcasecmp` makes the LE/BE suffixes case-insensitive too) — to their
hyphenated canonical forms, and pass every other name through unchanged. -/
def specFixChars (l : List Char) : List Char :=
  match l with
  | c0 :: c1 :: c2 :: rest =>
    if lowerAscii c0 = 'u' ∧ lowerAscii c1 = 't' ∧ lowerAscii c2 = 'f' then
      let r := rest.map lowerAscii
      if r = ['8'] then ("UTF-8").toList
      else if r = ['1', '6'] then ("UTF-16").toList
      else if r = ['1', '6', 'l', 'e'] then ("UTF-16LE").toList
      else if r = ['1', '6', 'b', 'e'] then ("UTF-16BE").toList
      else if r = ['3', '2'] then ("UTF-32").toList
      else if r = ['3', '2', 'l', 'e'] then ("UTF-32LE").toList
      else if r = ['3', '2', 'b', 'e'] then ("UTF-32BE").toList
      else if r = ['7'] then ("UTF-7").toList
      else l
    else l
  | l => l

/-- The spec-side fixup on strings. -/
def specFixEncodingName (name : String) : String :=
  String.mk (specFixChars name.toList)

/-- `Iconv::New` (src/iconv.cc lines 207-226), abstracted over the
primitive's `iconv_open`: the public arguments are (source, target) but the
primitive is opened as `iconv_open(fix(target), fix(source))` — native
(target, source) order; on open failure the construction throws
`Conversion not supported.` with the ambient errno. -/
def IconvNew {H : Type} (openPrim : String → String → Except Errno H)
    (sourceEncoding targetEncoding : String) : Except JsError H :=
  match openPrim (fixEncodingName targetEncoding) (fixEncodingName sourceEncoding) with
  | .ok h => .ok h
  | .error e => .error (.unsupportedConversion e)

/-- A trivial concrete primitive: stateless, consumes nothing, produces
nothing, always succeeds.  Used to evaluate the engine on closed inputs. -/
def trivPrim : Prim Unit :=
  { reset := fun s => s
  , step := fun s i _ => (s, i, [], none)
  , flush := fun s _ => (s, [], none) }

/-- A concrete primitive whose step always fails with EILSEQ. -/
def ilseqPrim : Prim Unit :=
  { reset := fun s => s
  , step := fun s i _ => (s, i, [], some .eilseq)
  , flush := fun s _ => (s, [], none) }

/-- A concrete primitive whose flush always fails with E2BIG. -/
def e2bigFlushPrim : Prim Unit :=
  { reset := fun s => s
  , step := fun s i _ => (s, i, [], none)
  , flush := fun s _ => (s, [], some .e2big) }

/-- A recording `iconv_open`: succeeds and returns its own two arguments in
the order it received them, exposing which names reach the primitive. -/
def recordOpen : String → String → Except Errno (String × String) :=
  fun tgt src => .ok (tgt, src)

/-- An `iconv_open` that always fails with a fixed system error code. -/
def failOpen : String → String → Except Errno Unit :=
  fun _ _ => .error (.other 99)

/-- C1: a successful call to the buffer-growth operation on a conversion
buffer whose logical length is at most its capacity yields the new capacity
`16` when the old capacity is zero and double the old capacity otherwise
(which equals `max 16 (2 * cap)` for every capacity the engine ever passes:
the buffer starts at capacity 0 and every grown capacity is at least 16,
hence the guarded `max` conjunct), preserves all previously written bytes
and the write cursor's relative offset (the `data` field, whose length is
the offset, is unchanged), and maintains logical length ≤ capacity. -/
theorem grow_doubles (st st1 : Buf)
    (hlen : st.data.length ≤ st.cap)
    (h : grow true st = some st1) :
    st1.cap = (if st.cap = 0 then 16 else st.cap * 2) ∧
    (st.cap = 0 ∨ 8 ≤ st.cap → st1.cap = max 16 (st.cap * 2)) ∧
    st1.data = st.data ∧
    st1.data.length ≤ st1.cap := by
  simp only [grow, if_pos, Option.some.injEq] at h
  subst h
  refine ⟨rfl, ?_, rfl, ?_⟩
  · rintro (hc | hc)
    · simp [hc]
    · have hne : st.cap ≠ 0 := by omega
      simp only [if_neg hne]
      omega
  · by_cases hc : st.cap = 0
    · simp [hc]
      omega
    · simp only [if_neg hc]
      omega

/-- Witness for C1 at the concrete buffer ⟨[7,7], 16, 3⟩. -/
theorem grow_doubles_witness :
    (⟨[7, 7], 32, 16⟩ : Buf).cap = max 16 (16 * 2) ∧ (⟨[7, 7], 32, 16⟩ : Buf).data = [7, 7] :=
  have h := grow_doubles ⟨[7, 7], 16, 3⟩ ⟨[7, 7], 32, 16⟩ (by decide) rfl
  ⟨h.2.1 (Or.inr (by decide)), h.2.2.1⟩

/-- C7: constructing a converter with public arguments (source, target)
opens the primitive in the inverted native order — the name reaching the
primitive's first (target) slot is the fixed-up public target and the
second (source) slot the fixed-up public source — with the encoding-name
fixup applied to both, as the recording open function exposes. -/
theorem new_inverted_order :
    (∀ sourceEncoding targetEncoding : String,
      IconvNew recordOpen sourceEncoding targetEncoding
        = .ok (fixEncodingName targetEncoding, fixEncodingName sourceEncoding)) ∧
    IconvNew recordOpen ("UTF8") ("latin1") = .ok ("latin1", "UTF-8") := by
  exact ⟨fun s t => rfl, rfl⟩

/-- C9: when the primitive cannot open the requested pair, construction
fails with `UnsupportedConversion` carrying the underlying system error
code, and no converter handle is produced. -/
theorem open_failure_unsupported {H : Type} (openPrim : String → String → Except Errno H)
    (s t : String) (e : Errno)
    (h : openPrim (fixEncodingName t) (fixEncodingName s) = .error e) :
    IconvNew openPrim s t = .error (.unsupportedConversion e) ∧
    ∀ hh : H, IconvNew openPrim s t ≠ .ok hh := by
  unfold IconvNew
  rw [h]
  exact ⟨rfl, by simp⟩

/-- Witness for C9 with an open function failing with error code 99. -/
theorem open_failure_unsupported_witness :
    IconvNew failOpen ("NOT-A-REAL-ENCODING") ("UTF-8")
      = .error (.unsupportedConversion (.other 99)) :=
  (open_failure_unsupported failOpen ("NOT-A-REAL-ENCODING") ("UTF-8") (.other 99) rfl).1

/-- C10: a host-language string argument to the public convert operation is
converted exactly as the buffer holding its UTF-8 bytes would be, for every
handle (every primitive and starting state), regardless of the handle's
source encoding; `utf8Bytes` really is UTF-8 (e.g. é ↦ [0xC3, 0xA9]). -/
theorem string_arg_is_utf8 {σ : Type} (prim : Prim σ) (fuel : Nat) (s0 : σ)
    (allocs : List Bool) (shrinkOk : Bool) :
    (∀ s : String,
      IconvConvertJs prim fuel s0 allocs shrinkOk (.str s)
        = IconvConvertJs prim fuel s0 allocs shrinkOk (.buf (utf8Bytes s))) ∧
    utf8Bytes ("é") = [195, 169] :=
  ⟨fun s => rfl, by decide⟩

/-- C3: every failing conversion surfaces the error classified from the
primitive's failure signal per the spec's taxonomy: EINVAL ↦
IncompleteSequence, EILSEQ ↦ IllegalSequence, ENOMEM ↦ OutOfMemory, and
anything else (including E2BIG escaping the flush retry) ↦ OtherSystemError
carrying the underlying code. -/
theorem convert_error_classified {σ : Type} (prim : Prim σ) (fuel : Nat) (s0 : σ)
    (input : List Nat) (allocs : List Bool) (shrinkOk : Bool) (r : CRet)
    (h : convert prim fuel s0 input allocs shrinkOk = some r)
    (hok : r.ok = false) :
    IconvConvert prim fuel s0 input allocs shrinkOk
      = some (.error (specClassify r.errno)) ∧
    specClassify .einval = .incompleteSequence .einval ∧
    specClassify .eilseq = .illegalSequence .eilseq ∧
    specClassify .enomem = .outOfMemory .enomem ∧
    specClassify .e2big = .otherSystemError .e2big ∧
    (∀ c, specClassify (.other c) = .otherSystemError (.other c)) := by
  refine ⟨?_, rfl, rfl, rfl, rfl, fun c => rfl⟩
  unfold IconvConvert
  rw [h]
  simp only [hok, Bool.false_eq_true, if_false]
  cases he : r.errno <;> simp [he, specClassify]

/-- Witness for C3: a primitive failing with EILSEQ yields the
IllegalSequence classification. -/
theorem convert_error_classified_witness :
    IconvConvert ilseqPrim 1 () [1] [] true = some (.error (.illegalSequence .eilseq)) :=
  (convert_error_classified ilseqPrim 1 () [1] [] true
    (errorExit .eilseq ⟨1, 1, 0, 0, 0⟩) rfl rfl).1

/-- C4: on every failure path of a conversion call the output pointer and
length are reset to null/zero and the storage is freed before the error is
surfaced, and the JavaScript wrapper never returns a buffer for a failed
conversion: buffers and errors are mutually exclusive outcomes. -/
theorem failure_frees_output {σ : Type} (prim : Prim σ) (fuel : Nat) (s0 : σ)
    (input : List Nat) (allocs : List Bool) (shrinkOk : Bool) (r : CRet)
    (h : convert prim fuel s0 input allocs shrinkOk = some r)
    (hok : r.ok = false) :
    r.output = none ∧ r.outlen = 0 ∧ r.storage = 0 ∧
    (∀ bytes, IconvConvert prim fuel s0 input allocs shrinkOk ≠ some (.ok bytes)) := by
  have hfields : r.output = none ∧ r.outlen = 0 ∧ r.storage = 0 := by
    unfold convert at h
    split at h
    · exact absurd h (by simp)
    · simp only [Option.some.injEq] at h
      subst h
      exact ⟨rfl, rfl, rfl⟩
    · split at h
      · simp only [Option.some.injEq] at h
        subst h
        exact ⟨rfl, rfl, rfl⟩
      · simp only [Option.some.injEq] at h
        subst h
        simp at hok
  refine ⟨hfields.1, hfields.2.1, hfields.2.2, fun bytes hcontra => ?_⟩
  unfold IconvConvert at hcontra
  rw [h] at hcontra
  simp only [hok, Bool.false_eq_true, if_false] at hcontra
  cases he : r.errno <;> simp [he] at hcontra

/-- Witness for C4 at a primitive failing with EILSEQ on input [5]. -/
theorem failure_frees_output_witness :
    (errorExit .eilseq ⟨1, 1, 0, 0, 0⟩).output = none ∧
    (errorExit .eilseq ⟨1, 1, 0, 0, 0⟩).outlen = 0 ∧
    (errorExit .eilseq ⟨1, 1, 0, 0, 0⟩).storage = 0 ∧
    (∀ bytes, IconvConvert ilseqPrim 1 () [5] [] true ≠ some (.ok bytes)) :=
  failure_frees_output ilseqPrim 1 () [5] [] true (errorExit .eilseq ⟨1, 1, 0, 0, 0⟩) rfl rfl

/-- C2: after the growth loop consumes the input, the engine flushes; at
most two flush calls and at most one grow ever happen in this phase; a
first-flush failure other than output-too-small aborts at once; on
output-too-small the engine grows exactly once (aborting with ENOMEM if the
realloc fails) and retries the flush exactly once, aborting on any failure
of the retry; and a flush-phase error aborts the whole conversion through
the error exit, which frees the buffer. -/
theorem flush_single_retry {σ : Type} (prim : Prim σ) (s : σ) (st : Buf)
    (allocs : List Bool) :
    ((flushPhase prim s st allocs).callCount ≤ 2 ∧
     (flushPhase prim s st allocs).growCount ≤ 1) ∧
    (∀ s1 out1 e, prim.flush s st.tail = (s1, out1, some e) → e ≠ .e2big →
        flushPhase prim s st allocs = .err e 1 0) ∧
    (∀ s1 out1 rest, prim.flush s st.tail = (s1, out1, some .e2big) →
        popAlloc allocs = (false, rest) →
        flushPhase prim s st allocs = .err .enomem 1 1) ∧
    (∀ s1 out1 rest st2 s2 out2 e2, prim.flush s st.tail = (s1, out1, some .e2big) →
        popAlloc allocs = (true, rest) →
        grow true (st.write out1) = some st2 →
        prim.flush s1 st2.tail = (s2, out2, some e2) →
        flushPhase prim s st allocs = .err e2 2 1) ∧
    (∀ s1 out1 rest st2 s2 out2, prim.flush s st.tail = (s1, out1, some .e2big) →
        popAlloc allocs = (true, rest) →
        grow true (st.write out1) = some st2 →
        prim.flush s1 st2.tail = (s2, out2, none) →
        flushPhase prim s st allocs = .ok s2 (st2.write out2) rest 2 1) ∧
    (∀ fuel s0 input sIn stIn restIn it gc e fc fg shrinkOk,
        convertLoop prim fuel (prim.reset s0) input
            { data := [], cap := 0, tail := 0 } allocs 0 0
          = .ok sIn stIn restIn it gc →
        flushPhase prim sIn stIn restIn = .err e fc fg →
        convert prim fuel s0 input allocs shrinkOk
          = some (errorExit e { loopIters := it, growCalls := gc,
                                flushCalls := fc, flushGrows := fg,
                                shrinkCalls := 0 })) := by
  refine ⟨?_, ?_, ?_, ?_, ?_, ?_⟩
  · unfold flushPhase
    rcases hf : prim.flush s st.tail with ⟨s1, out1, r1⟩
    rcases r1 with _ | e
    · simp [FlushRes.callCount, FlushRes.growCount]
    · by_cases he : e = .e2big
      · subst he
        simp only [if_pos rfl]
        rcases hg : grow (popAlloc allocs).1 (st.write out1) with _ | st2
        · simp [FlushRes.callCount, FlushRes.growCount]
        · rcases hf2 : prim.flush s1 st2.tail with ⟨s2, out2, r2⟩
          rcases r2 with _ | e2 <;> simp [hf2, FlushRes.callCount, FlushRes.growCount]
      · simp [if_neg he, FlushRes.callCount, FlushRes.growCount]
  · intro s1 out1 e hf hne
    unfold flushPhase
    rw [hf]
    simp [if_neg hne]
  · intro s1 out1 rest hf hpop
    unfold flushPhase
    rw [hf]
    simp only [if_pos rfl, hpop]
    have : grow false (st.write out1) = none := rfl
    simp [this]
  · intro s1 out1 rest st2 s2 out2 e2 hf hpop hg hf2
    unfold flushPhase
    rw [hf]
    simp [hpop, hg, hf2]
  · intro s1 out1 rest st2 s2 out2 hf hpop hg hf2
    unfold flushPhase
    rw [hf]
    simp [hpop, hg, hf2]
  · intro fuel s0 input sIn stIn restIn it gc e fc fg shrinkOk hloop hfl
    unfold convert
    rw [hloop]
    simp only [hfl]

/-- Witness for C2: a primitive whose flush always reports E2BIG makes the
phase grow once, retry once, and abort with the retry's error. -/
theorem flush_single_retry_witness :
    flushPhase e2bigFlushPrim () { data := [], cap := 0, tail := 0 } [] = .err .e2big 2 1 :=
  (flush_single_retry e2bigFlushPrim () { data := [], cap := 0, tail := 0 } []).2.2.2.1
    () [] [] ⟨[], 16, 16⟩ () [] .e2big rfl rfl rfl rfl

/-- Counterexample to C6 as stated: converting a zero-length input with
the trivial primitive succeeds with an empty buffer, but the growth loop's
body IS entered — the loop is a do/while, so `loopIters = 1` and one
allocation (`growCalls = 1`) happens — refuting the claim's
\"without entering the growth loop's body\". -/
theorem empty_input_loop_entered :
    convert trivPrim 1 () [] [] true
      = some { ok := true, output := some [], outlen := 0, storage := 0,
               errno := .other 0,
               stats := { loopIters := 1, growCalls := 1, flushCalls := 1,
                          flushGrows := 0, shrinkCalls := 1 } } ∧
    ¬ (∀ r, convert trivPrim 1 () [] [] true = some r → r.stats.loopIters = 0) := by
  refine ⟨rfl, fun hcl => ?_⟩
  have h1 := hcl _ rfl
  simp at h1

/-- C6 (amended): converting a zero-length input is legal and never
produces an error, for any primitive whose step is a no-op on empty input,
whose flush succeeds in the initial 16-byte allocation, and a successful
first allocation: it yields an owned buffer holding exactly the flush's
shift-only preamble (zero or more bytes, zero for stateless encodings) —
but the growth loop's body is entered exactly once (the loop is do/while),
performing one allocation and one primitive step that consumes nothing,
rather than zero times as the claim stated. -/
theorem empty_input_no_error {σ : Type} (prim : Prim σ) (s0 : σ)
    (allocs rest : List Bool) (shrinkOk : Bool) (s2 : σ) (pre : List Nat)
    (hstep : ∀ s n, prim.step s [] n = (s, [], [], none))
    (halloc : popAlloc allocs = (true, rest))
    (hflush : prim.flush (prim.reset s0) 16 = (s2, pre, none)) :
    convert prim 1 s0 [] allocs shrinkOk
      = some { ok := true, output := some pre, outlen := pre.length,
               storage := if shrinkOk then pre.length else 16,
               errno := .other 0,
               stats := { loopIters := 1, growCalls := 1, flushCalls := 1,
                          flushGrows := 0, shrinkCalls := 1 } } := by
  have hl : convertLoop prim 1 (prim.reset s0) [] { data := [], cap := 0, tail := 0 } allocs 0 0
      = .ok (prim.reset s0) { data := [], cap := 16, tail := 16 } rest 1 1 := by
    unfold convertLoop
    rw [halloc]
    simp only [grow, if_pos, Option.some.injEq, hstep]
    simp [Buf.write]
  have hfl : flushPhase prim (prim.reset s0) { data := [], cap := 16, tail := 16 } rest
      = .ok s2 ({ data := [], cap := 16, tail := 16 : Buf}.write pre) rest 1 0 := by
    unfold flushPhase
    rw [show ({ data := [], cap := 16, tail := 16 : Buf}).tail = 16 from rfl, hflush]
  unfold convert
  rw [hl]
  simp only [hfl]
  simp [finishPhase, Buf.write]
  by_cases hsh : shrinkOk <;> simp [hsh]

/-- Witness for C6 (amended) at the trivial stateless primitive. -/
theorem empty_input_no_error_witness :
    convert trivPrim 1 () [] [] false
      = some { ok := true, output := some [], outlen := 0,
               storage := 16, errno := .other 0,
               stats := { loopIters := 1, growCalls := 1, flushCalls := 1,
                          flushGrows := 0, shrinkCalls := 1 } } :=
  empty_input_no_error trivPrim () [] [] false () [] (fun _ _ => rfl) rfl rfl

/-- Growth preserves the buffer invariant. -/
theorem grow_inv {a : Bool} {st st1 : Buf} (h : grow a st = some st1)
    (hinv : BufInv st) : BufInv st1 := by
  unfold grow at h
  split at h
  · simp only [Option.some.injEq] at h
    subst h
    unfold BufInv at hinv
    show st.data.length + ((if st.cap = 0 then 16 else st.cap * 2) - st.cap)
        ≤ (if st.cap = 0 then 16 else st.cap * 2)
    by_cases hc : st.cap = 0
    · rw [if_pos hc]
      omega
    · rw [if_neg hc]
      omega
  · exact absurd h (by simp)

/-- Writing at most the remaining tail preserves the buffer invariant. -/
theorem write_inv {st : Buf} {out : List Nat} (hinv : BufInv st)
    (hfit : out.length ≤ st.tail) : BufInv (st.write out) := by
  unfold BufInv at hinv
  show (st.data ++ out).length + (st.tail - out.length) ≤ st.cap
  rw [List.length_append]
  omega

/-- The growth loop preserves the buffer invariant for well-formed
primitives. -/
theorem convertLoop_inv {σ : Type} {prim : Prim σ} (hwf : PrimWF prim) :
    ∀ (fuel : Nat) (s : σ) (input : List Nat) (st : Buf) (allocs : List Bool)
      (it gc : Nat) (s1 : σ) (st1 : Buf) (allocs1 : List Bool) (it1 gc1 : Nat),
      convertLoop prim fuel s input st allocs it gc = .ok s1 st1 allocs1 it1 gc1 →
      BufInv st → BufInv st1 := by
  intro fuel
  induction fuel with
  | zero =>
    intro s input st allocs it gc s1 st1 allocs1 it1 gc1 h hinv
    exact absurd h (by simp [convertLoop])
  | succ n ih =>
    intro s input st allocs it gc s1 st1 allocs1 it1 gc1 h hinv
    unfold convertLoop at h
    simp only [] at h
    rcases hg : grow (popAlloc allocs).1 st with _ | stg
    · rw [hg] at h
      exact absurd h (by simp)
    · rw [hg] at h
      simp only [] at h
      have hinv2 : BufInv (stg.write (Prim.step prim s input stg.tail).2.2.1) :=
        write_inv (grow_inv hg hinv) (hwf.step_fits s input stg.tail)
      split at h
      · exact ih _ _ _ _ _ _ _ _ _ _ _ h hinv2
      · exact absurd h (by simp)
      · simp only [LoopRes.ok.injEq] at h
        obtain ⟨-, h2, -, -, -⟩ := h
        subst h2
        exact hinv2

/-- The flush phase preserves the buffer invariant for well-formed
primitives. -/
theorem flushPhase_inv {σ : Type} {prim : Prim σ} (hwf : PrimWF prim)
    {s : σ} {st : Buf} {allocs : List Bool} {s2 : σ} {st2 : Buf}
    {rest : List Bool} {c g : Nat}
    (h : flushPhase prim s st allocs = .ok s2 st2 rest c g)
    (hinv : BufInv st) : BufInv st2 := by
  unfold flushPhase at h
  split at h
  · rename_i sa out1 heq
    simp only [FlushRes.ok.injEq] at h
    obtain ⟨-, h2, -, -, -⟩ := h
    subst h2
    have hfit1 : out1.length ≤ st.tail := by
      have hh := hwf.flush_fits s st.tail
      rw [heq] at hh
      exact hh
    exact write_inv hinv hfit1
  · rename_i sa out1 e heq
    have hfit1 : out1.length ≤ st.tail := by
      have hh := hwf.flush_fits s st.tail
      rw [heq] at hh
      exact hh
    split at h
    · simp only [] at h
      split at h
      · exact absurd h (by simp)
      · rename_i stg hg
        split at h
        · rename_i sb out2 heq2
          simp only [FlushRes.ok.injEq] at h
          obtain ⟨-, h2, -, -, -⟩ := h
          subst h2
          have hfit2 : out2.length ≤ stg.tail := by
            have hh := hwf.flush_fits sa stg.tail
            rw [heq2] at hh
            exact hh
          exact write_inv (grow_inv hg (write_inv hinv hfit1)) hfit2
        · exact absurd h (by simp)
    · exact absurd h (by simp)

/-- The trivial primitive is well-formed. -/
theorem trivPrim_wf : PrimWF trivPrim :=
  ⟨fun _ _ n => by simp [trivPrim], fun _ n => by simp [trivPrim]⟩

/-- C5: at the end of every successful conversion the engine shrinks the
storage exactly once (`shrinkCalls = 1`) to the logical output length
(`storage = outlen` when the shrink realloc succeeds); if the shrink
realloc fails the conversion still succeeds with the same bytes, the same
correct logical length and the same call counts, merely keeping the
oversized allocation (`outlen ≤ storage`) — shrink failure is never
surfaced as an error. -/
theorem shrink_failure_nonfatal {σ : Type} (prim : Prim σ) (hwf : PrimWF prim)
    (fuel : Nat) (s0 : σ) (input : List Nat) (allocs : List Bool) (r r1 : CRet)
    (ht : convert prim fuel s0 input allocs true = some r)
    (hf : convert prim fuel s0 input allocs false = some r1)
    (hok : r.ok = true) :
    r1.ok = true ∧ r1.output = r.output ∧ r1.outlen = r.outlen ∧
    r.storage = r.outlen ∧ r1.outlen ≤ r1.storage ∧
    r1.stats = r.stats ∧ r.stats.shrinkCalls = 1 := by
  unfold convert at ht hf
  rcases hl : convertLoop prim fuel (prim.reset s0) input
      { data := [], cap := 0, tail := 0 } allocs 0 0 with
    ⟨sIn, stIn, restIn, it, gc⟩ | ⟨e, it, gc⟩ | _
  · rw [hl] at ht hf
    simp only [] at ht hf
    rcases hfl : flushPhase prim sIn stIn restIn with
      ⟨s2, st2, rest2, fc, fg⟩ | ⟨e, fc, fg⟩
    · rw [hfl] at ht hf
      simp only [Option.some.injEq] at ht hf
      subst ht
      subst hf
      have hinv2 : BufInv st2 :=
        flushPhase_inv hwf hfl
          (convertLoop_inv hwf fuel (prim.reset s0) input _ allocs 0 0
            sIn stIn restIn it gc hl (by simp [BufInv]))
      refine ⟨rfl, rfl, rfl, rfl, ?_, rfl, rfl⟩
      show (finishPhase false st2).1.length ≤ (finishPhase false st2).2
      unfold BufInv at hinv2
      simp only [finishPhase, if_neg Bool.false_ne_true]
      omega
    · rw [hfl] at ht
      simp only [Option.some.injEq] at ht
      subst ht
      simp [errorExit] at hok
  · rw [hl] at ht
    simp only [Option.some.injEq] at ht
    subst ht
    simp [errorExit] at hok
  · rw [hl] at ht
    exact absurd ht (by simp)

/-- Witness for C5 at the trivial primitive on empty input. -/
theorem shrink_failure_nonfatal_witness :
    ({ ok := true, output := some [], outlen := 0, storage := 16, errno := .other 0,
       stats := { loopIters := 1, growCalls := 1, flushCalls := 1, flushGrows := 0,
                  shrinkCalls := 1 } } : CRet).ok = true ∧
    ({ ok := true, output := some [], outlen := 0, storage := 16, errno := .other 0,
       stats := { loopIters := 1, growCalls := 1, flushCalls := 1, flushGrows := 0,
                  shrinkCalls := 1 } } : CRet).output
      = some [] ∧
    ({ ok := true, output := some [], outlen := 0, storage := 16, errno := .other 0,
       stats := { loopIters := 1, growCalls := 1, flushCalls := 1, flushGrows := 0,
                  shrinkCalls := 1 } } : CRet).outlen = 0 ∧
    (0 : Nat) = 0 ∧
    (0 : Nat) ≤ 16 ∧
    ({ ok := true, output := some [], outlen := 0, storage := 16, errno := .other 0,
       stats := { loopIters := 1, growCalls := 1, flushCalls := 1, flushGrows := 0,
                  shrinkCalls := 1 } } : CRet).stats
      = ({ ok := true, output := some [], outlen := 0, storage := 0, errno := .other 0,
           stats := { loopIters := 1, growCalls := 1, flushCalls := 1, flushGrows := 0,
                      shrinkCalls := 1 } } : CRet).stats ∧
    ({ ok := true, output := some [], outlen := 0, storage := 0, errno := .other 0,
       stats := { loopIters := 1, growCalls := 1, flushCalls := 1, flushGrows := 0,
                  shrinkCalls := 1 } } : CRet).stats.shrinkCalls = 1 :=
  shrink_failure_nonfatal trivPrim trivPrim_wf 1 () [] [] _ _ rfl rfl rfl

/-- Lowercase ASCII codes survive the `Char.ofNat` round trip. -/
theorem charOfNat_toNat_lower : ∀ n, n < 123 → 96 < n → (Char.ofNat n).toNat = n := by decide

/-- ASCII lowering hits a character below code 65 (digits, '-') only from
that character itself. -/
theorem lowerAscii_eq_low {c d : Char} (hd : d.toNat < 65) : lowerAscii c = d ↔ c = d := by
  unfold lowerAscii
  split
  · rename_i hc
    constructor
    · intro h
      have h2 : (Char.ofNat (c.toNat + 32)).toNat = c.toNat + 32 :=
        charOfNat_toNat_lower _ (by omega) (by omega)
      have h3 := congrArg Char.toNat h
      rw [h2] at h3
      omega
    · intro h
      subst h
      omega
  · exact Iff.rfl

/-- Lowering a list equals a one-character list of a below-65 character
exactly when the list itself is that singleton. -/
theorem map_lowerAscii_singleton {s : List Char} {d : Char} (hd : d.toNat < 65) :
    s.map lowerAscii = [d] ↔ s = [d] := by
  cases s with
  | nil => simp
  | cons a t =>
    cases t with
    | nil => simp [lowerAscii_eq_low hd]
    | cons b u => simp

/-- The source's alias fixup and the spec-side table agree on every
character list. -/
theorem fixChars_eq_specFixChars : ∀ l : List Char, fixChars l = specFixChars l := by
  have l1 : lowerAscii '1' = '1' := by decide
  have l2 : lowerAscii '2' = '2' := by decide
  have l3 : lowerAscii '3' = '3' := by decide
  have l6 : lowerAscii '6' = '6' := by decide
  have l7 : lowerAscii '7' = '7' := by decide
  have l8 : lowerAscii '8' = '8' := by decide
  have lL : lowerAscii 'L' = 'l' := by decide
  have lB : lowerAscii 'B' = 'b' := by decide
  have lE : lowerAscii 'E' = 'e' := by decide
  have ldash : lowerAscii '-' = '-' := by decide
  have e1 : ∀ c : Char, lowerAscii c = '1' ↔ c = '1' := fun c => lowerAscii_eq_low (by decide)
  have e3 : ∀ c : Char, lowerAscii c = '3' ↔ c = '3' := fun c => lowerAscii_eq_low (by decide)
  have e7 : ∀ c : Char, lowerAscii c = '7' ↔ c = '7' := fun c => lowerAscii_eq_low (by decide)
  have e8 : ∀ c : Char, lowerAscii c = '8' ↔ c = '8' := fun c => lowerAscii_eq_low (by decide)
  have m6 : ∀ s : List Char, s.map lowerAscii = ['6'] ↔ s = ['6'] :=
    fun s => map_lowerAscii_singleton (by decide)
  have m2 : ∀ s : List Char, s.map lowerAscii = ['2'] ↔ s = ['2'] :=
    fun s => map_lowerAscii_singleton (by decide)
  intro l
  match l with
  | [] => rfl
  | [c0] => rfl
  | [c0, c1] => rfl
  | c0 :: c1 :: c2 :: rest =>
    by_cases hu : lowerAscii c0 = 'u' ∧ lowerAscii c1 = 't' ∧ lowerAscii c2 = 'f'
    case neg =>
      simp only [fixChars, specFixChars]
      rw [if_neg (fun hh => hu ⟨hh.1, hh.2.1, hh.2.2.1⟩), if_neg hu]
    case pos =>
      obtain ⟨h0, h1, h2⟩ := hu
      cases rest with
      | nil =>
        simp only [fixChars, specFixChars]
        rw [if_pos ⟨h0, h1, h2, by simp⟩, if_pos ⟨h0, h1, h2⟩]
        simp
      | cons r0 s =>
        by_cases hdash : r0 = '-'
        · subst hdash
          simp only [fixChars, specFixChars]
          rw [if_neg (fun hh => hh.2.2.2 (by simp)), if_pos ⟨h0, h1, h2⟩]
          simp [ldash]
        · simp only [fixChars, specFixChars]
          rw [if_pos ⟨h0, h1, h2, by simp [hdash]⟩]
          by_cases hr1 : r0 = '1'
          · subst hr1
            simp only [List.map_cons, List.map_nil, l1, l2, l3, l6, l7, l8, lL, lB, lE,
              List.cons.injEq, m6, if_pos rfl]
            simp [h0, h1, h2, m6]
          · by_cases hr3 : r0 = '3'
            · subst hr3
              simp only [List.map_cons, List.map_nil, l1, l2, l3, l6, l7, l8, lL, lB, lE,
                List.cons.injEq, m2, if_pos rfl]
              simp [h0, h1, h2, hr1, m2]
            · by_cases hr7 : r0 = '7'
              · subst hr7
                simp [h0, h1, h2, hr1, hr3, l1, l3, l6, l7, l8, List.map_eq_nil_iff]
              · by_cases hr8 : r0 = '8'
                · subst hr8
                  simp [h0, h1, h2, hr1, hr3, hr7, l1, l3, l6, l7, l8, List.map_eq_nil_iff]
                · simp [h0, h1, h2, hr1, hr3, hr7, hr8, e1, e3, e7, e8]

/-- C8: the encoding-name fixup maps the unhyphenated UTF aliases (UTF8,
UTF16, UTF16LE, UTF16BE, UTF32, UTF32LE, UTF32BE, UTF7) to their canonical
hyphenated forms, matching case-insensitively (the \"UTF\" prefix and the
LE/BE suffixes; digits have no case), and passes every other name through
unchanged — including names already containing a '-' after \"UTF\" — as the
full extensional equality with the spec-modelled table shows, together with
concrete alias, case-variant and pass-through evaluations. -/
theorem fixEncodingName_spec :
    (∀ name : String, fixEncodingName name = specFixEncodingName name) ∧
    fixEncodingName ("UTF8") = "UTF-8" ∧
    fixEncodingName ("utf16le") = "UTF-16LE" ∧
    fixEncodingName ("Utf32bE") = "UTF-32BE" ∧
    fixEncodingName ("UTF7") = "UTF-7" ∧
    fixEncodingName ("UTF-8") = "UTF-8" ∧
    fixEncodingName ("UTF16LEX") = "UTF16LEX" ∧
    fixEncodingName ("KOI8-R") = "KOI8-R" := by
  refine ⟨fun name => ?_, by decide, by decide, by decide, by decide, by decide, by decide,
    by decide⟩
  unfold fixEncodingName specFixEncodingName
  rw [fixChars_eq_specFixChars]
